import Mathlib

/-!
Verification of the label-selector engine (src/labelSelector.js).

The JavaScript source is shallowly embedded: the `_conjuncts` object (a
JS object keyed by the derived id string) becomes an association list
`List (String × Conjunct)` with insertion-ordered keys, JS object
assignment becomes `objSet` (replace-in-place if the key exists,
otherwise append, which is exactly the key/iteration-order behaviour of
JS objects for non-numeric string keys), and JS `undefined` label
lookups become `Option String`.  Since label values are strings, JS
truthiness of a looked-up label is captured exactly by the two facts:
`labels[k]` is truthy iff the key is present with a non-empty value,
and `labels[k] || labels[k] === ""` holds iff the key is present.
-/

namespace LabelSel

/-- One constraint ("conjunct"): src/labelSelector.js lines 52-56.
The JS object also carries `id` and `string` fields set by `addConjunct`;
the id is the association-list key in this embedding and the display
string is not used by any algorithm, so neither is a field here. -/
structure Conjunct where
  key : String
  operator : String
  values : List String
  deriving DecidableEq

/-- A resource's label map: string keys to string values (JS object). -/
abbrev Labels := List (String × String)

/-- `labels[key]` on a JS object: the value if the key is present. -/
def lookupLabel (labels : Labels) (key : String) : Option String :=
  match labels with
  | [] => none
  | (k, v) :: rest => if k = key then some v else lookupLabel rest key

/-- `metadata` sub-object of a resource: may or may not carry `labels`. -/
structure Metadata where
  labels : Option Labels

/-- A resource as consumed by `matches`: optional top-level `labels`
field and optional `metadata` (lines 104-107 of the source). -/
structure Resource where
  labels : Option Labels
  metadata : Option Metadata

/-- The selector engine state: `_conjuncts` (id-keyed object, modelled
as an insertion-ordered association list) and `_emptySelectsAll`. -/
structure LabelSelector where
  conjuncts : List (String × Conjunct)
  emptySelectsAll : Bool
  deriving DecidableEq

/-- JS object assignment `obj[k] = v`: overwrite in place when the key
exists, otherwise append (JS objects keep first-insertion key order). -/
def objSet (m : List (String × Conjunct)) (k : String) (v : Conjunct) :
    List (String × Conjunct) :=
  match m with
  | [] => [(k, v)]
  | (k', v') :: rest =>
    if k' = k then (k, v) :: rest else (k', v') :: objSet rest k v

/-- JS object read `obj[k]`. -/
def objGet (m : List (String × Conjunct)) (k : String) : Option Conjunct :=
  match m with
  | [] => none
  | (k', v') :: rest => if k' = k then some v' else objGet rest k

/-- `values.join(",")` (Array.prototype.join with separator ","). -/
def joinComma : List String → String
  | [] => ""
  | [v] => v
  | v :: vs => v ++ "," ++ joinComma vs

/-- `_getIdForConjunct` (lines 254-260): `key + "-" + operator` and,
since a JS array (empty included) is always truthy, always
`+ "-" + values.join(",")`. -/
def getIdForConjunct (c : Conjunct) : String :=
  c.key ++ "-" ++ c.operator ++ "-" ++ joinComma c.values

/-- `addConjunct` (lines 51-62): build the conjunct, derive its id,
store it under that id (upsert). -/
def addConjunct (sel : LabelSelector) (key operator : String)
    (values : List String) : LabelSelector :=
  let conjunct : Conjunct := ⟨key, operator, values⟩
  { sel with conjuncts := objSet sel.conjuncts (getIdForConjunct conjunct) conjunct }

/-- `removeConjunct` (lines 66-73), by id (`delete this._conjuncts[id]`;
the conjunct-object overload reads the same id off the object). -/
def removeConjunct (sel : LabelSelector) (id : String) : LabelSelector :=
  { sel with conjuncts := sel.conjuncts.filter (fun p => p.1 ≠ id) }

/-- `clearConjuncts` (lines 75-77). -/
def clearConjuncts (sel : LabelSelector) : LabelSelector :=
  { sel with conjuncts := [] }

/-- `isEmpty` (lines 79-81): `$.isEmptyObject(this._conjuncts)`. -/
def isEmpty (sel : LabelSelector) : Bool :=
  sel.conjuncts.isEmpty

/-- The label map `matches` evaluates against (lines 104-107):
`resource.labels || {}`, overridden by `resource.metadata.labels || {}`
whenever `resource.metadata` is present (all objects are truthy). -/
def resourceLabels (r : Resource) : Labels :=
  match r.metadata with
  | some m => m.labels.getD []
  | none => r.labels.getD []

/-- Whether one conjunct makes `matches` return false (the per-case
`return false` tests in the switch, lines 108-144).  With string label
values: `!labels[k] && labels[k] !== ""` holds iff the key is absent;
`labels[k] || labels[k] === ""` holds iff the key is present;
`labels[k]` alone holds iff the key is present with a non-empty value.
An operator matching no case falls through and never fails. -/
def conjunctFails (labels : Labels) (c : Conjunct) : Bool :=
  let v := lookupLabel labels c.key
  if c.operator = "exists" then
    v = none
  else if c.operator = "does not exist" then
    v ≠ none
  else if c.operator = "in" then
    match v with
    | some s => !(c.values.any (fun w => s = w))
    | none => true
  else if c.operator = "not in" then
    match v with
    | some s => s ≠ "" && c.values.any (fun w => s = w)
    | none => false
  else
    false

/-- `matches` (lines 97-147): null resource never matches; an empty
conjunct set yields `_emptySelectsAll`; otherwise every conjunct must
not fail (the loop returns false at the first failing conjunct). -/
def «matches» (sel : LabelSelector) (resource : Option Resource) : Bool :=
  match resource with
  | none => false
  | some r =>
    if isEmpty sel then
      sel.emptySelectsAll
    else
      sel.conjuncts.all (fun p => !conjunctFails (resourceLabels r) p.2)

/-- `hasConjunct` (lines 149-151): lookup by the derived id (a stored
object is always truthy). -/
def hasConjunct (sel : LabelSelector) (conjunct : Conjunct) : Bool :=
  (objGet sel.conjuncts (getIdForConjunct conjunct)).isSome

/-- `findConjunctsMatching` (lines 153-155): the sub-map of conjuncts
with the given operator and key, in stored order (`_.pickBy`). -/
def findConjunctsMatching (sel : LabelSelector) (operator key : String) :
    List (String × Conjunct) :=
  sel.conjuncts.filter (fun p => p.2.operator = operator && p.2.key = key)

/-- Lodash `_.uniq` step used by `_.intersection`: keep the first
occurrence of each value. -/
def dedupFirstAux (seen : List String) : List String → List String
  | [] => []
  | x :: xs =>
    if x ∈ seen then dedupFirstAux seen xs
    else x :: dedupFirstAux (x :: seen) xs

/-- Lodash `_.intersection(a, b)`: the unique values of `a` that also
occur in `b`, in order of their first occurrence in `a`. -/
def lintersection (a b : List String) : List String :=
  dedupFirstAux [] (a.filter (fun x => b.contains x))

/-- The body of the `_.every` callback in `covers` (lines 165-203):
whether the given conjunct (from the receiver selector) is covered by
`selector` (the argument).  Exact-id match first, then the per-operator
detailed check; an unknown operator falls through to `return true`. -/
def coversConjunct (selector : LabelSelector) (conjunct : Conjunct) : Bool :=
  if hasConjunct selector conjunct then
    true
  else if conjunct.operator = "exists" then
    !(findConjunctsMatching selector "in" conjunct.key).isEmpty
  else if conjunct.operator = "does not exist" then
    false
  else if conjunct.operator = "in" then
    let inConjuncts := findConjunctsMatching selector "in" conjunct.key
    if inConjuncts.isEmpty then
      false
    else
      inConjuncts.all (fun p =>
        p.2.values.length = (lintersection p.2.values conjunct.values).length)
  else if conjunct.operator = "not in" then
    let notInConjuncts := findConjunctsMatching selector "not in" conjunct.key
    if notInConjuncts.isEmpty then
      false
    else
      notInConjuncts.all (fun p =>
        conjunct.values.length = (lintersection p.2.values conjunct.values).length)
  else
    true

/-- `covers` (lines 158-204): an empty selector covers nothing;
otherwise every conjunct must be covered. -/
def covers (sel : LabelSelector) (selector : LabelSelector) : Bool :=
  if isEmpty sel then
    false
  else
    sel.conjuncts.all (fun p => coversConjunct selector p.2)

/-- `_OPERATOR_MAP` (lines 16-21), API operator name to internal name.
A JS lookup of an unknown key yields `undefined`; within this code an
`undefined` operator behaves exactly like the literal string
"undefined" (it matches no switch case, compares unequal to the four
internal names, and coerces to "undefined" in id concatenation), so the
default models it. -/
def OPERATOR_MAP (op : String) : String :=
  if op = "In" then "in"
  else if op = "NotIn" then "not in"
  else if op = "Exists" then "exists"
  else if op = "DoesNotExist" then "does not exist"
  else "undefined"

/-- `_REVERSE_OPERATOR_MAP` (lines 22-27), internal name back to the
API name; unknown operators modelled as for `OPERATOR_MAP`. -/
def REVERSE_OPERATOR_MAP (op : String) : String :=
  if op = "in" then "In"
  else if op = "not in" then "NotIn"
  else if op = "exists" then "Exists"
  else if op = "does not exist" then "DoesNotExist"
  else "undefined"

/-- One entry of a `matchExpressions` list in the wire format. -/
structure MatchExpression where
  key : String
  operator : String
  values : List String
  deriving DecidableEq

/-- The `selector` constructor argument (lines 29-48): either the
expression shape (`matchLabels` and/or `matchExpressions`, each absent
or present) or the legacy equality-map shape, whose entries are either
a string value or null/absent (`none`). -/
inductive SelectorInput where
  | expr (matchLabels : Option (List (String × String)))
      (matchExpressions : Option (List MatchExpression))
  | eqMap (entries : List (String × Option String))

/-- The `LabelSelector` constructor (lines 8-49).  In the expression
shape the branch is taken when `matchLabels || matchExpressions` is
truthy, i.e. when either field is present (JS objects and arrays,
empty ones included, are truthy); in the equality-map shape a non-null
value (the empty string included) becomes a one-value `in` conjunct and
a null value becomes an `exists` conjunct. -/
def mkLabelSelector (selector : Option SelectorInput)
    (emptySelectsAll : Bool) : LabelSelector :=
  let base : LabelSelector := ⟨[], emptySelectsAll⟩
  match selector with
  | none => base
  | some (.expr ml me) =>
    if ml.isSome || me.isSome then
      let s1 := (ml.getD []).foldl
        (fun s p => addConjunct s p.1 "in" [p.2]) base
      (me.getD []).foldl
        (fun s e => addConjunct s e.key (OPERATOR_MAP e.operator) e.values) s1
    else
      base
  | some (.eqMap entries) =>
    entries.foldl
      (fun s p =>
        match p.2 with
        | some v => addConjunct s p.1 "in" [v]
        | none => addConjunct s p.1 "exists" []) base

/-- `exportJSON` (lines 207-221), up to the final `JSON.stringify`: the
`matchExpressions` list built from the stored conjuncts in order. -/
def exportJSON (sel : LabelSelector) : List MatchExpression :=
  sel.conjuncts.map (fun p =>
    ⟨p.2.key, REVERSE_OPERATOR_MAP p.2.operator, p.2.values⟩)

/-- One call of the mutation API (add/remove/clear). -/
inductive SelOp where
  | add (key operator : String) (values : List String)
  | remove (id : String)
  | clear

/-- Apply one mutation-API call to the selector state. -/
def applyOp (sel : LabelSelector) : SelOp → LabelSelector
  | .add key operator values => addConjunct sel key operator values
  | .remove id => removeConjunct sel id
  | .clear => clearConjuncts sel

/-- The data-model invariant: conjunct ids are unique within one
selector instance (the collection is a mapping from id to conjunct). -/
def UniqueIds (sel : LabelSelector) : Prop :=
  (sel.conjuncts.map Prod.fst).Nodup

instance (sel : LabelSelector) : Decidable (UniqueIds sel) :=
  inferInstanceAs (Decidable ((sel.conjuncts.map Prod.fst).Nodup))

/-- Every stored key is the id derived from its conjunct.  This holds
of every state built through the API, which stores a conjunct only
under `getIdForConjunct` of that conjunct. -/
def StoredIdsDerived (sel : LabelSelector) : Prop :=
  ∀ p ∈ sel.conjuncts, p.1 = getIdForConjunct p.2

instance (sel : LabelSelector) : Decidable (StoredIdsDerived sel) :=
  inferInstanceAs (Decidable (∀ p ∈ sel.conjuncts, p.1 = getIdForConjunct p.2))

/-- Every stored operator is one of the four internal operator names,
the four-valued enum of the data model. -/
def KnownOperators (sel : LabelSelector) : Prop :=
  ∀ p ∈ sel.conjuncts,
    p.2.operator ∈ (["in", "not in", "exists", "does not exist"] : List String)

instance (sel : LabelSelector) : Decidable (KnownOperators sel) :=
  inferInstanceAs (Decidable (∀ p ∈ sel.conjuncts,
    p.2.operator ∈ (["in", "not in", "exists", "does not exist"] : List String)))

/-- A string containing no comma, the separator of the id scheme (the
source assumes label values have no commas, lines 223-224). -/
def commaFree (s : String) : Prop :=
  ',' ∉ s.data

instance (s : String) : Decidable (commaFree s) :=
  inferInstanceAs (Decidable (',' ∉ s.data))



theorem objSet_ne_nil (m : List (String × Conjunct)) (k : String) (v : Conjunct) :
    objSet m k v ≠ [] := by
  cases m with
  | nil => simp [objSet]
  | cons p t =>
    obtain ⟨a, b⟩ := p
    simp only [objSet]
    split <;> simp

theorem mem_objSet_self (m : List (String × Conjunct)) (k : String) (v : Conjunct) :
    (k, v) ∈ objSet m k v := by
  induction m with
  | nil => simp [objSet]
  | cons p t ih =>
    obtain ⟨a, b⟩ := p
    simp only [objSet]
    split
    · exact List.mem_cons_self _ _
    · exact List.mem_cons_of_mem _ ih

theorem objSet_keys_of_mem {m : List (String × Conjunct)} {k : String} (v : Conjunct)
    (h : k ∈ m.map Prod.fst) :
    (objSet m k v).map Prod.fst = m.map Prod.fst := by
  induction m with
  | nil => simp at h
  | cons p t ih =>
    obtain ⟨a, b⟩ := p
    simp only [objSet]
    split
    · simp_all
    · rename_i hne
      simp only [List.map_cons, List.mem_cons] at h
      simp only [List.map_cons]
      rcases h with h | h
      · exact absurd h.symm hne
      · rw [ih h]

theorem objSet_of_not_mem_keys {m : List (String × Conjunct)} {k : String} (v : Conjunct)
    (h : k ∉ m.map Prod.fst) :
    objSet m k v = m ++ [(k, v)] := by
  induction m with
  | nil => simp [objSet]
  | cons p t ih =>
    obtain ⟨a, b⟩ := p
    simp only [List.map_cons, List.mem_cons, not_or] at h
    simp only [objSet]
    rw [if_neg (Ne.symm h.1), ih h.2]
    simp

theorem nodup_keys_objSet {m : List (String × Conjunct)} (k : String) (v : Conjunct)
    (h : (m.map Prod.fst).Nodup) :
    ((objSet m k v).map Prod.fst).Nodup := by
  by_cases hk : k ∈ m.map Prod.fst
  · rw [objSet_keys_of_mem v hk]
    exact h
  · rw [objSet_of_not_mem_keys v hk]
    simp only [List.map_append, List.map_cons, List.map_nil]
    rw [List.nodup_append]
    refine ⟨h, List.nodup_singleton _, ?_⟩
    intro x hx hxk
    rw [List.mem_singleton] at hxk
    exact hk (hxk ▸ hx)

theorem objSet_idem (m : List (String × Conjunct)) (k : String) (v : Conjunct) :
    objSet (objSet m k v) k v = objSet m k v := by
  induction m with
  | nil => simp [objSet]
  | cons p t ih =>
    obtain ⟨a, b⟩ := p
    simp only [objSet]
    split
    · simp [objSet]
    · rename_i hne
      simp only [objSet]
      rw [if_neg hne, ih]

theorem dedupFirstAux_sublist (l : List String) :
    ∀ seen, List.Sublist (dedupFirstAux seen l) l := by
  induction l with
  | nil => intro seen; simp [dedupFirstAux]
  | cons x xs ih =>
    intro seen
    simp only [dedupFirstAux]
    split
    · exact (ih seen).cons x
    · exact (ih (x :: seen)).cons₂ x

theorem mem_dedupFirstAux (l : List String) :
    ∀ (seen : List String) (x : String),
      x ∈ dedupFirstAux seen l ↔ x ∈ l ∧ x ∉ seen := by
  induction l with
  | nil => intro seen x; simp [dedupFirstAux]
  | cons y ys ih =>
    intro seen x
    simp only [dedupFirstAux]
    split
    · rename_i hy
      rw [ih seen x]
      simp only [List.mem_cons]
      constructor
      · rintro ⟨h1, h2⟩
        exact ⟨Or.inr h1, h2⟩
      · rintro ⟨h1, h2⟩
        rcases h1 with rfl | h1
        · exact absurd hy h2
        · exact ⟨h1, h2⟩
    · rename_i hy
      simp only [List.mem_cons, ih (y :: seen) x, List.mem_cons, not_or]
      constructor
      · rintro (rfl | ⟨h1, _, h3⟩)
        · exact ⟨Or.inl rfl, hy⟩
        · exact ⟨Or.inr h1, h3⟩
      · rintro ⟨rfl | h1, h2⟩
        · exact Or.inl rfl
        · by_cases hxy : x = y
          · exact Or.inl hxy
          · exact Or.inr ⟨h1, hxy, h2⟩

theorem nodup_dedupFirstAux (l : List String) :
    ∀ seen, (dedupFirstAux seen l).Nodup := by
  induction l with
  | nil => intro seen; simp [dedupFirstAux]
  | cons y ys ih =>
    intro seen
    simp only [dedupFirstAux]
    split
    · exact ih seen
    · rw [List.nodup_cons]
      refine ⟨?_, ih (y :: seen)⟩
      intro hmem
      rcases (mem_dedupFirstAux ys (y :: seen) y).mp hmem with ⟨_, h2⟩
      exact h2 (List.mem_cons_self _ _)

theorem dedupFirstAux_eq_self (l : List String) :
    ∀ seen, l.Nodup → (∀ x ∈ l, x ∉ seen) → dedupFirstAux seen l = l := by
  induction l with
  | nil => intro seen _ _; simp [dedupFirstAux]
  | cons y ys ih =>
    intro seen hnd hs
    simp only [dedupFirstAux]
    rw [if_neg (hs y (List.mem_cons_self _ _))]
    rw [List.nodup_cons] at hnd
    rw [ih (y :: seen) hnd.2]
    intro x hx
    rw [List.mem_cons, not_or]
    exact ⟨fun hxy => hnd.1 (hxy ▸ hx), hs x (List.mem_cons_of_mem _ hx)⟩

theorem lintersection_sublist (a b : List String) :
    List.Sublist (lintersection a b) a :=
  (dedupFirstAux_sublist _ []).trans (List.filter_sublist a)

theorem mem_lintersection (a b : List String) (x : String) :
    x ∈ lintersection a b ↔ x ∈ a ∧ x ∈ b := by
  rw [lintersection, mem_dedupFirstAux]
  simp [List.mem_filter]

theorem nodup_lintersection (a b : List String) :
    (lintersection a b).Nodup :=
  nodup_dedupFirstAux _ []

theorem lintersection_length_left_iff (a b : List String) :
    a.length = (lintersection a b).length ↔ lintersection a b = a := by
  constructor
  · intro h
    exact (lintersection_sublist a b).eq_of_length h.symm
  · intro h
    rw [h]

theorem lintersection_eq_left_iff (a b : List String) :
    lintersection a b = a ↔ a.Nodup ∧ ∀ x ∈ a, x ∈ b := by
  constructor
  · intro h
    refine ⟨h ▸ nodup_lintersection a b, ?_⟩
    intro x hx
    exact ((mem_lintersection a b x).mp (by rw [h]; exact hx)).2
  · rintro ⟨hnd, hsub⟩
    rw [lintersection]
    have hf : a.filter (fun x => b.contains x) = a := by
      rw [List.filter_eq_self]
      intro x hx
      simpa using hsub x hx
    rw [hf]
    exact dedupFirstAux_eq_self a [] hnd (by simp)

theorem lintersection_length_right_iff (a b : List String) :
    (lintersection a b).length = b.length ↔ b.Nodup ∧ ∀ x ∈ b, x ∈ a := by
  constructor
  · intro h
    have hsub : (lintersection a b).toFinset ⊆ b.toFinset := by
      intro x hx
      exact List.mem_toFinset.mpr ((mem_lintersection a b x).mp (List.mem_toFinset.mp hx)).2
    have hlen : (lintersection a b).toFinset.card = (lintersection a b).length :=
      List.toFinset_card_of_nodup (nodup_lintersection a b)
    have hcard : b.toFinset.card = b.length := by
      refine le_antisymm (List.toFinset_card_le b) ?_
      calc b.length = (lintersection a b).length := h.symm
        _ = (lintersection a b).toFinset.card := hlen.symm
        _ ≤ b.toFinset.card := Finset.card_le_card hsub
    have hbnd : b.Nodup := by
      rw [List.card_toFinset] at hcard
      have hde := (List.dedup_sublist b).eq_of_length hcard
      rw [← hde]
      exact List.nodup_dedup b
    refine ⟨hbnd, ?_⟩
    intro v hv
    by_contra hva
    have hvl : v ∉ (lintersection a b).toFinset := by
      rw [List.mem_toFinset, mem_lintersection]
      rintro ⟨ha, _⟩
      exact hva ha
    have hsub2 : (lintersection a b).toFinset ⊆ b.toFinset.erase v := by
      intro x hx
      rw [Finset.mem_erase]
      exact ⟨fun he => hvl (he ▸ hx), hsub hx⟩
    have hle : (lintersection a b).length ≤ b.toFinset.card - 1 := by
      rw [← hlen, ← Finset.card_erase_of_mem (List.mem_toFinset.mpr hv)]
      exact Finset.card_le_card hsub2
    have hpos : 0 < b.length := List.length_pos.mpr (List.ne_nil_of_mem hv)
    rw [h, hcard] at hle
    omega
  · rintro ⟨hnd, hsub⟩
    have hset : (lintersection a b).toFinset = b.toFinset := by
      ext x
      simp only [List.mem_toFinset, mem_lintersection]
      exact ⟨fun hx => hx.2, fun hx => ⟨hsub x hx, hx⟩⟩
    calc (lintersection a b).length
        = (lintersection a b).toFinset.card :=
          (List.toFinset_card_of_nodup (nodup_lintersection a b)).symm
      _ = b.toFinset.card := by rw [hset]
      _ = b.length := List.toFinset_card_of_nodup hnd

/-- C5: for every selector, whatever its constraint set and
`emptySelectsAll` flag, `matches` of a missing/null resource returns
false: the null check precedes the empty-set check. -/
theorem matches_null_resource_is_false (sel : LabelSelector) :
    «matches» sel none = false := rfl

/-- C6: for every non-null resource, a selector whose constraint set is
empty returns exactly its `emptySelectsAll` flag from `matches`. -/
theorem matches_empty_set_returns_flag (sel : LabelSelector) (r : Resource)
    (h : sel.conjuncts = []) :
    «matches» sel (some r) = sel.emptySelectsAll := by
  simp [«matches», isEmpty, h]

theorem matches_empty_set_returns_flag_witness :
    (LabelSelector.mk [] true).conjuncts = [] ∧
    «matches» (LabelSelector.mk [] true) (some ⟨none, none⟩)
      = (LabelSelector.mk [] true).emptySelectsAll :=
  ⟨rfl, matches_empty_set_returns_flag ⟨[], true⟩ ⟨none, none⟩ rfl⟩

/-- C10: when a resource has a `metadata` field, `matches` evaluates
against `metadata.labels` (empty if absent) and ignores any top-level
`labels` field: a resource with top-level labels but metadata lacking
labels is evaluated exactly like one with an empty label map. -/
theorem matches_prefers_metadata_labels (sel : LabelSelector) (tl : Labels)
    (ml : Option Labels) :
    («matches» sel (some ⟨some tl, some ⟨ml⟩⟩)
      = «matches» sel (some ⟨none, some ⟨ml⟩⟩)) ∧
    («matches» sel (some ⟨some tl, some ⟨none⟩⟩)
      = «matches» sel (some ⟨some [], none⟩)) :=
  ⟨rfl, rfl⟩

/-- C3: a `NotIn` conjunct never fails on a label whose value is the
empty string (present-but-empty counts as absent for `NotIn`), and it
fails whenever the key has a non-empty value equal to one of the
conjunct's values; in particular the selector built from
`matchExpressions [\x7bkey: "env", operator: "NotIn", values: ["prod"]\x7d]`
matches a resource labelled `env: ""` and rejects one labelled
`env: "prod"`. -/
theorem notIn_treats_empty_string_as_absent :
    (∀ (c : Conjunct) (labels : Labels),
      c.operator = "not in" → lookupLabel labels c.key = some "" →
      conjunctFails labels c = false) ∧
    (∀ (c : Conjunct) (labels : Labels) (v : String),
      c.operator = "not in" → lookupLabel labels c.key = some v →
      v ≠ "" → v ∈ c.values → conjunctFails labels c = true) ∧
    «matches» (mkLabelSelector (some (.expr none (some [⟨"env", "NotIn", ["prod"]⟩]))) false)
      (some ⟨some [("env", "")], none⟩) = true ∧
    «matches» (mkLabelSelector (some (.expr none (some [⟨"env", "NotIn", ["prod"]⟩]))) false)
      (some ⟨some [("env", "prod")], none⟩) = false := by
  refine ⟨?_, ?_, by decide, by decide⟩
  · intro c labels hop hlook
    simp [conjunctFails, hop, hlook]
  · intro c labels v hop hlook hne hmem
    simp [conjunctFails, hop, hlook, hne, List.any_eq_true]
    exact hmem

theorem notIn_treats_empty_string_as_absent_witness :
    conjunctFails [("k", "")] ⟨"k", "not in", ["a"]⟩ = false ∧
    conjunctFails [("k", "a")] ⟨"k", "not in", ["a"]⟩ = true :=
  ⟨notIn_treats_empty_string_as_absent.1 ⟨"k", "not in", ["a"]⟩ [("k", "")] rfl rfl,
   notIn_treats_empty_string_as_absent.2.1 ⟨"k", "not in", ["a"]⟩ [("k", "a")] "a" rfl rfl
     (by decide) (by decide)⟩

/-- C1 counterexample: the claim's containment reading fails.  Take
A = \x7bIn("k", ["a"])\x7d and B = \x7bIn("k", ["a", "a"])\x7d.  A's conjunct has no
exact-id match in B, B has an In conjunct on "k", and every In conjunct
In("k", W) of B has all of W's values contained in V = ["a"]; the claim
therefore counts A's conjunct as covered, yet the code does not (lodash
intersection deduplicates, so W = ["a", "a"] fails the length test) and
covers returns false. -/
theorem covers_in_containment_counterexample :
    ((getIdForConjunct ⟨"k", "in", ["a"]⟩, (⟨"k", "in", ["a"]⟩ : Conjunct)) ∈
      (addConjunct ⟨[], false⟩ "k" "in" ["a"]).conjuncts) ∧
    (addConjunct ⟨[], false⟩ "k" "in" ["a"]).conjuncts ≠ [] ∧
    hasConjunct (addConjunct ⟨[], false⟩ "k" "in" ["a", "a"]) ⟨"k", "in", ["a"]⟩ = false ∧
    findConjunctsMatching (addConjunct ⟨[], false⟩ "k" "in" ["a", "a"]) "in" "k" ≠ [] ∧
    (∀ p ∈ findConjunctsMatching (addConjunct ⟨[], false⟩ "k" "in" ["a", "a"]) "in" "k",
      ∀ w ∈ p.2.values, w ∈ (["a"] : List String)) ∧
    coversConjunct (addConjunct ⟨[], false⟩ "k" "in" ["a", "a"]) ⟨"k", "in", ["a"]⟩ = false ∧
    covers (addConjunct ⟨[], false⟩ "k" "in" ["a"])
      (addConjunct ⟨[], false⟩ "k" "in" ["a", "a"]) = false := by
  decide

/-- C1 (amended): for a nonempty selector A, covers is the conjunction
of per-conjunct coverage; an In conjunct In(K, V) of A with no exact-id
match in B is covered iff B has at least one In conjunct on K and every
In(K, W) stored in B satisfies intersection(W, V) = W elementwise,
which holds exactly when W is duplicate-free and W's values are all
contained in V; the sentence's examples over In("K", ["a", "b"]) hold. -/
theorem covers_in_conjunct_characterization :
    (∀ (A B : LabelSelector), A.conjuncts ≠ [] →
      covers A B = A.conjuncts.all (fun p => coversConjunct B p.2)) ∧
    (∀ (B : LabelSelector) (c : Conjunct), c.operator = "in" →
      hasConjunct B c = false →
      (coversConjunct B c = true ↔
        (findConjunctsMatching B "in" c.key ≠ [] ∧
          ∀ p ∈ findConjunctsMatching B "in" c.key,
            lintersection p.2.values c.values = p.2.values))) ∧
    (∀ (W V : List String),
      lintersection W V = W ↔ W.Nodup ∧ ∀ x ∈ W, x ∈ V) ∧
    covers (addConjunct ⟨[], false⟩ "K" "in" ["a", "b"])
      (addConjunct ⟨[], false⟩ "K" "in" ["a"]) = true ∧
    covers (addConjunct ⟨[], false⟩ "K" "in" ["a", "b"])
      (addConjunct ⟨[], false⟩ "K" "in" ["b"]) = true ∧
    covers (addConjunct ⟨[], false⟩ "K" "in" ["a", "b"])
      (addConjunct ⟨[], false⟩ "K" "in" ["a", "b"]) = true ∧
    covers (addConjunct ⟨[], false⟩ "K" "in" ["a", "b"])
      (addConjunct ⟨[], false⟩ "K" "in" ["a", "c"]) = false := by
  refine ⟨?_, ?_, lintersection_eq_left_iff, by decide, by decide, by decide, by decide⟩
  · intro A B h
    have he : A.conjuncts.isEmpty = false := by
      simp [List.isEmpty_iff, h]
    simp [covers, isEmpty, he]
  · intro B c hop hhas
    simp only [coversConjunct, hhas, hop]
    norm_num
    have h1 : ¬("in" : String) = "exists" := by decide
    have h2 : ¬("in" : String) = "does not exist" := by decide
    rw [if_neg h1]
    simp only [h2, not_false_eq_true, true_and]
    exact and_congr_right fun _ =>
      forall_congr' fun a => forall_congr' fun b => imp_congr_right fun _ =>
        lintersection_length_left_iff b.values c.values

theorem covers_in_conjunct_characterization_witness :
    (addConjunct ⟨[], false⟩ "K" "in" ["a", "b"]).conjuncts ≠ [] ∧
    covers (addConjunct ⟨[], false⟩ "K" "in" ["a", "b"]) (addConjunct ⟨[], false⟩ "K" "in" ["a"])
      = (addConjunct ⟨[], false⟩ "K" "in" ["a", "b"]).conjuncts.all
          (fun p => coversConjunct (addConjunct ⟨[], false⟩ "K" "in" ["a"]) p.2) ∧
    hasConjunct (addConjunct ⟨[], false⟩ "K" "in" ["a"]) ⟨"K", "in", ["a", "b"]⟩ = false ∧
    (coversConjunct (addConjunct ⟨[], false⟩ "K" "in" ["a"]) ⟨"K", "in", ["a", "b"]⟩ = true ↔
      (findConjunctsMatching (addConjunct ⟨[], false⟩ "K" "in" ["a"]) "in" "K" ≠ [] ∧
        ∀ p ∈ findConjunctsMatching (addConjunct ⟨[], false⟩ "K" "in" ["a"]) "in" "K",
          lintersection p.2.values ["a", "b"] = p.2.values)) :=
  ⟨by decide,
   covers_in_conjunct_characterization.1 (addConjunct ⟨[], false⟩ "K" "in" ["a", "b"])
     (addConjunct ⟨[], false⟩ "K" "in" ["a"]) (by decide),
   by decide,
   covers_in_conjunct_characterization.2.1 (addConjunct ⟨[], false⟩ "K" "in" ["a"])
     ⟨"K", "in", ["a", "b"]⟩ rfl (by decide)⟩

/-- C2 counterexample: the claim's subset reading fails.  Take
A = \x7bNotIn("k", ["a", "a"])\x7d and B = \x7bNotIn("k", ["a"])\x7d.  A's conjunct
has no exact-id match in B, B has a NotIn conjunct on "k", and every
value of V = ["a", "a"] is contained in every stored W = ["a"]; the
claim therefore counts A's conjunct as covered, yet lodash intersection
deduplicates, intersection(W, V) = ["a"] has size 1 ≠ 2 = size of V, so
the code does not cover it and covers returns false. -/
theorem covers_notIn_subset_counterexample :
    ((getIdForConjunct ⟨"k", "not in", ["a", "a"]⟩, (⟨"k", "not in", ["a", "a"]⟩ : Conjunct)) ∈
      (addConjunct ⟨[], false⟩ "k" "not in" ["a", "a"]).conjuncts) ∧
    (addConjunct ⟨[], false⟩ "k" "not in" ["a", "a"]).conjuncts ≠ [] ∧
    hasConjunct (addConjunct ⟨[], false⟩ "k" "not in" ["a"]) ⟨"k", "not in", ["a", "a"]⟩ = false ∧
    findConjunctsMatching (addConjunct ⟨[], false⟩ "k" "not in" ["a"]) "not in" "k" ≠ [] ∧
    (∀ p ∈ findConjunctsMatching (addConjunct ⟨[], false⟩ "k" "not in" ["a"]) "not in" "k",
      ∀ v ∈ (["a", "a"] : List String), v ∈ p.2.values) ∧
    coversConjunct (addConjunct ⟨[], false⟩ "k" "not in" ["a"]) ⟨"k", "not in", ["a", "a"]⟩
      = false ∧
    covers (addConjunct ⟨[], false⟩ "k" "not in" ["a", "a"])
      (addConjunct ⟨[], false⟩ "k" "not in" ["a"]) = false := by
  decide

/-- C2 (amended): a NotIn conjunct NotIn(K, V) of A with no exact-id
match in B is covered iff B has at least one NotIn conjunct on K and
every NotIn(K, W) stored in B satisfies that intersection(W, V) has the
same size as V, which holds exactly when V is duplicate-free and every
value of V occurs in W; the sentence's examples over NotIn("K", ["a"])
hold. -/
theorem covers_notIn_conjunct_characterization :
    (∀ (B : LabelSelector) (c : Conjunct), c.operator = "not in" →
      hasConjunct B c = false →
      (coversConjunct B c = true ↔
        (findConjunctsMatching B "not in" c.key ≠ [] ∧
          ∀ p ∈ findConjunctsMatching B "not in" c.key,
            (lintersection p.2.values c.values).length = c.values.length))) ∧
    (∀ (W V : List String),
      (lintersection W V).length = V.length ↔ V.Nodup ∧ ∀ v ∈ V, v ∈ W) ∧
    covers (addConjunct ⟨[], false⟩ "K" "not in" ["a"])
      (addConjunct ⟨[], false⟩ "K" "not in" ["a", "b"]) = true ∧
    covers (addConjunct ⟨[], false⟩ "K" "not in" ["a"])
      (addConjunct ⟨[], false⟩ "K" "not in" ["a", "c"]) = true ∧
    covers (addConjunct ⟨[], false⟩ "K" "not in" ["a"])
      (addConjunct ⟨[], false⟩ "K" "not in" ["b"]) = false := by
  refine ⟨?_, lintersection_length_right_iff, by decide, by decide, by decide⟩
  intro B c hop hhas
  simp only [coversConjunct, hhas, hop]
  norm_num
  have h1 : ¬("not in" : String) = "exists" := by decide
  have h2 : ¬("not in" : String) = "does not exist" := by decide
  have h3 : ¬("not in" : String) = "in" := by decide
  rw [if_neg h1, if_neg h3]
  simp only [h2, not_false_eq_true, true_and]
  exact and_congr_right fun _ =>
    forall_congr' fun a => forall_congr' fun b => imp_congr_right fun _ => eq_comm

theorem covers_notIn_conjunct_characterization_witness :
    hasConjunct (addConjunct ⟨[], false⟩ "K" "not in" ["a", "b"]) ⟨"K", "not in", ["a"]⟩
      = false ∧
    (coversConjunct (addConjunct ⟨[], false⟩ "K" "not in" ["a", "b"]) ⟨"K", "not in", ["a"]⟩
        = true ↔
      (findConjunctsMatching (addConjunct ⟨[], false⟩ "K" "not in" ["a", "b"]) "not in" "K"
          ≠ [] ∧
        ∀ p ∈ findConjunctsMatching (addConjunct ⟨[], false⟩ "K" "not in" ["a", "b"])
            "not in" "K",
          (lintersection p.2.values ["a"]).length = (["a"] : List String).length)) :=
  ⟨by decide,
   covers_notIn_conjunct_characterization.1 (addConjunct ⟨[], false⟩ "K" "not in" ["a", "b"])
     ⟨"K", "not in", ["a"]⟩ rfl (by decide)⟩

/-- C4 counterexample: with emptySelectsAll = false, removing the only
(satisfied) constraint empties the set, and `matches` then returns the
flag false: a match turns into a non-match, contradicting the claim's
explicit quantification over the case where removal empties the set. -/
theorem matches_remove_only_constraint_counterexample :
    ((getIdForConjunct ⟨"k", "exists", []⟩, (⟨"k", "exists", []⟩ : Conjunct)) ∈
      (addConjunct ⟨[], false⟩ "k" "exists" []).conjuncts) ∧
    conjunctFails (resourceLabels ⟨some [("k", "v")], none⟩) ⟨"k", "exists", []⟩ = false ∧
    «matches» (addConjunct ⟨[], false⟩ "k" "exists" []) (some ⟨some [("k", "v")], none⟩)
      = true ∧
    «matches» (removeConjunct (addConjunct ⟨[], false⟩ "k" "exists" [])
      (getIdForConjunct ⟨"k", "exists", []⟩)) (some ⟨some [("k", "v")], none⟩) = false := by
  decide

/-- C4 (amended): removing a single satisfied constraint cannot turn a
match into a non-match provided the set stays nonempty or
emptySelectsAll is true (without that proviso the claim fails, see the
counterexample); and adding a constraint the resource does not satisfy
cannot turn a non-match into a match, for both emptySelectsAll values. -/
theorem matches_monotone_under_mutation :
    (∀ (sel : LabelSelector) (r : Resource) (id : String) (c : Conjunct),
      (id, c) ∈ sel.conjuncts →
      conjunctFails (resourceLabels r) c = false →
      «matches» sel (some r) = true →
      ((removeConjunct sel id).conjuncts ≠ [] ∨ sel.emptySelectsAll = true) →
      «matches» (removeConjunct sel id) (some r) = true) ∧
    (∀ (sel : LabelSelector) (r : Resource) (k o : String) (v : List String),
      «matches» sel (some r) = false →
      conjunctFails (resourceLabels r) ⟨k, o, v⟩ = true →
      «matches» (addConjunct sel k o v) (some r) = false) := by
  constructor
  · intro sel r id c hmem hcf hm hne
    have hnonempty : sel.conjuncts ≠ [] := by
      intro h
      rw [h] at hmem
      exact absurd hmem (List.not_mem_nil _)
    have hie : isEmpty sel = false := by
      simp [isEmpty, List.isEmpty_iff, hnonempty]
    rw [«matches», hie] at hm
    simp only [Bool.false_eq_true, if_false] at hm
    rw [«matches»]
    rcases hre : isEmpty (removeConjunct sel id) with _ | _
    · simp only [Bool.false_eq_true, if_false]
      rw [List.all_eq_true] at hm ⊢
      intro p hp
      exact hm p (List.mem_of_mem_filter hp)
    · rw [isEmpty, List.isEmpty_iff] at hre
      rcases hne with hne | hne
      · exact absurd hre hne
      · simpa using hne
  · intro sel r k o v _ hcf
    rw [«matches»]
    have hie : isEmpty (addConjunct sel k o v) = false := by
      simp [isEmpty, addConjunct, List.isEmpty_iff, objSet_ne_nil]
    rw [hie]
    simp only [Bool.false_eq_true, if_false]
    rw [List.all_eq_false]
    refine ⟨(getIdForConjunct ⟨k, o, v⟩, ⟨k, o, v⟩), ?_, ?_⟩
    · exact mem_objSet_self sel.conjuncts _ _
    · simp [hcf]

theorem matches_monotone_under_mutation_witness :
    ((getIdForConjunct ⟨"k", "exists", []⟩, (⟨"k", "exists", []⟩ : Conjunct)) ∈
      (LabelSelector.mk [(getIdForConjunct ⟨"k", "exists", []⟩, ⟨"k", "exists", []⟩)]
        true).conjuncts) ∧
    conjunctFails (resourceLabels ⟨some [("k", "v")], none⟩) ⟨"k", "exists", []⟩ = false ∧
    «matches» (LabelSelector.mk [(getIdForConjunct ⟨"k", "exists", []⟩, ⟨"k", "exists", []⟩)]
      true) (some ⟨some [("k", "v")], none⟩) = true ∧
    «matches» (removeConjunct
      (LabelSelector.mk [(getIdForConjunct ⟨"k", "exists", []⟩, ⟨"k", "exists", []⟩)] true)
      (getIdForConjunct ⟨"k", "exists", []⟩)) (some ⟨some [("k", "v")], none⟩) = true ∧
    «matches» (⟨[], false⟩ : LabelSelector) (some ⟨none, none⟩) = false ∧
    conjunctFails (resourceLabels ⟨none, none⟩) ⟨"k", "in", ["a"]⟩ = true ∧
    «matches» (addConjunct ⟨[], false⟩ "k" "in" ["a"]) (some ⟨none, none⟩) = false :=
  ⟨by decide, by decide, by decide,
   matches_monotone_under_mutation.1
     ⟨[(getIdForConjunct ⟨"k", "exists", []⟩, ⟨"k", "exists", []⟩)], true⟩
     ⟨some [("k", "v")], none⟩ (getIdForConjunct ⟨"k", "exists", []⟩) ⟨"k", "exists", []⟩
     (by decide) (by decide) (by decide) (Or.inr rfl),
   by decide, by decide,
   matches_monotone_under_mutation.2 ⟨[], false⟩ ⟨none, none⟩ "k" "in" ["a"]
     (by decide) (by decide)⟩

/-- C8: adding the same (key, operator, values) conjunct twice is the
same state as adding it once, and under the uniqueness invariant the
collection then holds exactly one entry keyed by the derived id;
moreover every sequence of add/remove/clear operations preserves the
invariant that conjunct ids are unique. -/
theorem addConjunct_idempotent_and_ids_unique :
    (∀ (sel : LabelSelector) (k o : String) (v : List String),
      addConjunct (addConjunct sel k o v) k o v = addConjunct sel k o v) ∧
    (∀ (sel : LabelSelector) (k o : String) (v : List String),
      UniqueIds sel →
      ((addConjunct (addConjunct sel k o v) k o v).conjuncts.map Prod.fst).count
        (getIdForConjunct ⟨k, o, v⟩) = 1) ∧
    (∀ (sel : LabelSelector) (ops : List SelOp),
      UniqueIds sel → UniqueIds (ops.foldl applyOp sel)) := by
  refine ⟨?_, ?_, ?_⟩
  · intro sel k o v
    simp [addConjunct, objSet_idem]
  · intro sel k o v h
    rw [show addConjunct (addConjunct sel k o v) k o v = addConjunct sel k o v from by
      simp [addConjunct, objSet_idem]]
    have hnd : ((addConjunct sel k o v).conjuncts.map Prod.fst).Nodup :=
      nodup_keys_objSet (getIdForConjunct ⟨k, o, v⟩) ⟨k, o, v⟩ h
    have hmem : getIdForConjunct ⟨k, o, v⟩ ∈ (addConjunct sel k o v).conjuncts.map Prod.fst :=
      List.mem_map.mpr ⟨(getIdForConjunct ⟨k, o, v⟩, ⟨k, o, v⟩),
        mem_objSet_self sel.conjuncts _ _, rfl⟩
    exact List.count_eq_one_of_mem hnd hmem
  · intro sel ops h
    induction ops generalizing sel with
    | nil => exact h
    | cons op t ih =>
      rw [List.foldl_cons]
      apply ih
      cases op with
      | add k o v => exact nodup_keys_objSet (getIdForConjunct ⟨k, o, v⟩) ⟨k, o, v⟩ h
      | remove id =>
        have hs : List.Sublist ((sel.conjuncts.filter (fun p => p.1 ≠ id)).map Prod.fst)
            (sel.conjuncts.map Prod.fst) := (List.filter_sublist _).map Prod.fst
        exact hs.nodup h
      | clear => exact List.nodup_nil

theorem addConjunct_idempotent_and_ids_unique_witness :
    (addConjunct (addConjunct ⟨[], false⟩ "k" "in" ["a"]) "k" "in" ["a"]
      = addConjunct ⟨[], false⟩ "k" "in" ["a"]) ∧
    UniqueIds (⟨[], false⟩ : LabelSelector) ∧
    (((addConjunct (addConjunct ⟨[], false⟩ "k" "in" ["a"]) "k" "in" ["a"]).conjuncts.map
      Prod.fst).count (getIdForConjunct ⟨"k", "in", ["a"]⟩) = 1) ∧
    UniqueIds ([SelOp.add "k" "in" ["a"], SelOp.add "k" "in" ["a", "b"], SelOp.remove "x",
      SelOp.clear, SelOp.add "j" "exists" []].foldl applyOp ⟨[], false⟩) :=
  ⟨addConjunct_idempotent_and_ids_unique.1 ⟨[], false⟩ "k" "in" ["a"],
   by decide,
   addConjunct_idempotent_and_ids_unique.2.1 ⟨[], false⟩ "k" "in" ["a"] (by decide),
   addConjunct_idempotent_and_ids_unique.2.2 ⟨[], false⟩
     [SelOp.add "k" "in" ["a"], SelOp.add "k" "in" ["a", "b"], SelOp.remove "x",
      SelOp.clear, SelOp.add "j" "exists" []] (by decide)⟩

theorem opMap_reverse (op : String)
    (h : op ∈ (["in", "not in", "exists", "does not exist"] : List String)) :
    OPERATOR_MAP (REVERSE_OPERATOR_MAP op) = op := by
  simp only [List.mem_cons, List.not_mem_nil, or_false] at h
  rcases h with rfl | rfl | rfl | rfl <;> decide

theorem foldl_addConjunct_export (l : List (String × Conjunct)) :
    ∀ (s : LabelSelector),
    (∀ p ∈ l, p.1 = getIdForConjunct p.2) →
    (∀ p ∈ l, p.2.operator ∈ (["in", "not in", "exists", "does not exist"] : List String)) →
    ((s.conjuncts.map Prod.fst) ++ l.map Prod.fst).Nodup →
    ((l.map (fun p => (⟨p.2.key, REVERSE_OPERATOR_MAP p.2.operator, p.2.values⟩ :
        MatchExpression))).foldl
      (fun s e => addConjunct s e.key (OPERATOR_MAP e.operator) e.values) s).conjuncts
      = s.conjuncts ++ l := by
  induction l with
  | nil => intro s _ _ _; simp
  | cons p t ih =>
    obtain ⟨id, c⟩ := p
    intro s hid hop hnd
    have hid0 : id = getIdForConjunct c := hid (id, c) (List.mem_cons_self _ _)
    have hop0 := hop (id, c) (List.mem_cons_self _ _)
    simp only [List.map_cons, List.foldl_cons]
    rw [opMap_reverse c.operator hop0]
    rw [hid0] at hnd
    have hdisj := (List.nodup_append.mp hnd).2.2
    have hnot : getIdForConjunct c ∉ s.conjuncts.map Prod.fst := by
      intro hmem
      exact hdisj hmem (List.mem_cons_self _ _)
    have hs1 : (addConjunct s c.key c.operator c.values).conjuncts
        = s.conjuncts ++ [(getIdForConjunct c, c)] := by
      show objSet s.conjuncts (getIdForConjunct c) c = s.conjuncts ++ [(getIdForConjunct c, c)]
      exact objSet_of_not_mem_keys c hnot
    rw [ih (addConjunct s c.key c.operator c.values)
      (fun q hq => hid q (List.mem_cons_of_mem _ hq))
      (fun q hq => hop q (List.mem_cons_of_mem _ hq))
      (by
        rw [hs1]
        simpa [List.append_assoc] using hnd)]
    rw [hs1, hid0]
    simp [List.append_assoc]

/-- C7: for every selector satisfying the data model (operators drawn
from the four-valued enum, conjuncts keyed by their derived ids, ids
unique), re-parsing the exported `matchExpressions` list through the
constructor reproduces the constraint collection exactly, hence in
particular the same set of (key, operator, values) tuples. -/
theorem exportJSON_roundtrip (sel : LabelSelector) (esa : Bool)
    (h1 : StoredIdsDerived sel) (h2 : KnownOperators sel) (h3 : UniqueIds sel) :
    (mkLabelSelector (some (.expr none (some (exportJSON sel)))) esa).conjuncts
      = sel.conjuncts := by
  have hf := foldl_addConjunct_export sel.conjuncts ⟨[], esa⟩ h1 h2 (by simpa using h3)
  simpa [mkLabelSelector, exportJSON] using hf

theorem exportJSON_roundtrip_witness :
    StoredIdsDerived (addConjunct (addConjunct ⟨[], false⟩ "a" "in" ["x", "y"])
      "b" "not in" ["z"]) ∧
    KnownOperators (addConjunct (addConjunct ⟨[], false⟩ "a" "in" ["x", "y"])
      "b" "not in" ["z"]) ∧
    UniqueIds (addConjunct (addConjunct ⟨[], false⟩ "a" "in" ["x", "y"])
      "b" "not in" ["z"]) ∧
    (mkLabelSelector (some (.expr none (some (exportJSON
        (addConjunct (addConjunct ⟨[], false⟩ "a" "in" ["x", "y"]) "b" "not in" ["z"])))))
      false).conjuncts
      = (addConjunct (addConjunct ⟨[], false⟩ "a" "in" ["x", "y"])
          "b" "not in" ["z"]).conjuncts :=
  ⟨by decide, by decide, by decide,
   exportJSON_roundtrip (addConjunct (addConjunct ⟨[], false⟩ "a" "in" ["x", "y"])
     "b" "not in" ["z"]) false (by decide) (by decide) (by decide)⟩

theorem data_comma : (",").data = [','] := rfl

theorem comma_split_eq : ∀ (xs ys rs ss : List Char), ',' ∉ xs → ',' ∉ ys →
    xs ++ ',' :: rs = ys ++ ',' :: ss → xs = ys ∧ rs = ss := by
  intro xs
  induction xs with
  | nil =>
    intro ys rs ss _ hy h
    cases ys with
    | nil => simpa using h
    | cons y yt =>
      simp only [List.nil_append, List.cons_append, List.cons.injEq] at h
      exact absurd (show ',' ∈ y :: yt by rw [h.1]; exact List.mem_cons_self y yt) hy
  | cons x xt ih =>
    intro ys rs ss hx hy h
    cases ys with
    | nil =>
      simp only [List.nil_append, List.cons_append, List.cons.injEq] at h
      exact absurd (show ',' ∈ x :: xt by rw [← h.1]; exact List.mem_cons_self x xt) hx
    | cons y yt =>
      simp only [List.cons_append, List.cons.injEq] at h
      obtain ⟨hxy, h2⟩ := h
      have hx2 : ',' ∉ xt := fun hc => hx (List.mem_cons_of_mem _ hc)
      have hy2 : ',' ∉ yt := fun hc => hy (List.mem_cons_of_mem _ hc)
      obtain ⟨e1, e2⟩ := ih yt rs ss hx2 hy2 h2
      exact ⟨by rw [hxy, e1], e2⟩

theorem joinComma_inj : ∀ (l1 l2 : List String),
    (∀ s ∈ l1, commaFree s) → (∀ s ∈ l2, commaFree s) →
    l1 ≠ [] → l2 ≠ [] → joinComma l1 = joinComma l2 → l1 = l2 := by
  intro l1
  induction l1 with
  | nil =>
    intro l2 _ _ hne
    exact absurd rfl hne
  | cons a t1 ih =>
    intro l2 h1 h2 _ hne2 heq
    cases l2 with
    | nil => exact absurd rfl hne2
    | cons b t2 =>
      cases t1 with
      | nil =>
        cases t2 with
        | nil =>
          have heq2 : a = b := heq
          rw [heq2]
        | cons b2 t2x =>
          exfalso
          have heq2 : a = b ++ "," ++ joinComma (b2 :: t2x) := heq
          have hd := congrArg String.data heq2
          rw [String.data_append, String.data_append, data_comma] at hd
          have hmem : ',' ∈ a.data := by
            rw [hd]
            simp
          exact h1 a (List.mem_cons_self _ _) hmem
      | cons a2 t1x =>
        cases t2 with
        | nil =>
          exfalso
          have heq2 : a ++ "," ++ joinComma (a2 :: t1x) = b := heq
          have hd := congrArg String.data heq2
          rw [String.data_append, String.data_append, data_comma] at hd
          have hmem : ',' ∈ b.data := by
            rw [← hd]
            simp
          exact h2 b (List.mem_cons_self _ _) hmem
        | cons b2 t2x =>
          have heq2 : a ++ "," ++ joinComma (a2 :: t1x) = b ++ "," ++ joinComma (b2 :: t2x) :=
            heq
          have hd := congrArg String.data heq2
          rw [String.data_append, String.data_append, String.data_append,
            String.data_append, data_comma] at hd
          rw [List.append_assoc, List.append_assoc] at hd
          simp only [List.singleton_append] at hd
          obtain ⟨e1, e2⟩ := comma_split_eq a.data b.data _ _
            (h1 a (List.mem_cons_self _ _)) (h2 b (List.mem_cons_self _ _)) hd
          have ha : a = b := String.ext e1
          have ht : a2 :: t1x = b2 :: t2x :=
            ih (b2 :: t2x)
              (fun s hs => h1 s (List.mem_cons_of_mem _ hs))
              (fun s hs => h2 s (List.mem_cons_of_mem _ hs))
              (by simp) (by simp) (String.ext e2)
          rw [ha, ht]

theorem getId_values_inj (k o : String) (v1 v2 : List String)
    (h1 : ∀ s ∈ v1, commaFree s) (h2 : ∀ s ∈ v2, commaFree s)
    (hne1 : v1 ≠ []) (hne2 : v2 ≠ [])
    (h : getIdForConjunct ⟨k, o, v1⟩ = getIdForConjunct ⟨k, o, v2⟩) : v1 = v2 := by
  apply joinComma_inj v1 v2 h1 h2 hne1 hne2
  have hd := congrArg String.data h
  simp only [getIdForConjunct, String.data_append] at hd
  exact String.ext (List.append_cancel_left hd)

/-- C9 counterexample: with comma-bearing values the id scheme
collides.  The constraints In("k", ["a", "a,a"]) and
In("k", ["a,a", "a"]) share key and operator, hold the same values in
different orders, and are unequal as lists, yet both derive the id
"k-in-a,a,a"; a selector storing the first answers hasConjunct true for
the second, so the two are not treated as distinct identities. -/
theorem value_order_distinct_ids_counterexample :
    getIdForConjunct ⟨"k", "in", ["a", "a,a"]⟩ = getIdForConjunct ⟨"k", "in", ["a,a", "a"]⟩ ∧
    (["a", "a,a"] : List String) ≠ ["a,a", "a"] ∧
    (["a", "a,a"] : List String).Perm ["a,a", "a"] ∧
    hasConjunct (addConjunct ⟨[], false⟩ "k" "in" ["a", "a,a"]) ⟨"k", "in", ["a,a", "a"]⟩
      = true := by
  refine ⟨by decide, by decide, ?_, by decide⟩
  exact List.Perm.swap "a,a" "a" []

/-- C9 (amended): provided every value is comma-free (the separator of
the id scheme; the source assumes k8s label values contain no commas),
two constraints with the same key and operator whose value lists hold
the same values in different orders and differ as lists derive distinct
ids, and a selector storing one does not report hasConjunct for the
other; without the comma restriction the ids can collide (see the
counterexample). -/
theorem value_order_gives_distinct_ids (k o : String) (v1 v2 : List String)
    (h1 : ∀ s ∈ v1, commaFree s) (h2 : ∀ s ∈ v2, commaFree s)
    (hperm : v1.Perm v2) (hne : v1 ≠ v2) :
    getIdForConjunct ⟨k, o, v1⟩ ≠ getIdForConjunct ⟨k, o, v2⟩ ∧
    hasConjunct (addConjunct ⟨[], false⟩ k o v1) ⟨k, o, v2⟩ = false := by
  have hne1 : v1 ≠ [] := by
    intro h
    subst h
    exact hne (List.perm_nil.mp hperm.symm).symm
  have hne2 : v2 ≠ [] := by
    intro h
    subst h
    exact hne (List.perm_nil.mp hperm)
  have hidne : getIdForConjunct ⟨k, o, v1⟩ ≠ getIdForConjunct ⟨k, o, v2⟩ := by
    intro hid
    exact hne (getId_values_inj k o v1 v2 h1 h2 hne1 hne2 hid)
  refine ⟨hidne, ?_⟩
  simp [hasConjunct, addConjunct, objSet, objGet, hidne]

theorem value_order_gives_distinct_ids_witness :
    (∀ s ∈ (["a", "b"] : List String), commaFree s) ∧
    (∀ s ∈ (["b", "a"] : List String), commaFree s) ∧
    (["a", "b"] : List String).Perm ["b", "a"] ∧
    (["a", "b"] : List String) ≠ ["b", "a"] ∧
    getIdForConjunct ⟨"k", "in", ["a", "b"]⟩ ≠ getIdForConjunct ⟨"k", "in", ["b", "a"]⟩ ∧
    hasConjunct (addConjunct ⟨[], false⟩ "k" "in" ["a", "b"]) ⟨"k", "in", ["b", "a"]⟩
      = false :=
  ⟨by decide, by decide, List.Perm.swap "b" "a" [], by decide,
   (value_order_gives_distinct_ids "k" "in" ["a", "b"] ["b", "a"] (by decide) (by decide)
     (List.Perm.swap "b" "a" []) (by decide)).1,
   (value_order_gives_distinct_ids "k" "in" ["a", "b"] ["b", "a"] (by decide) (by decide)
     (List.Perm.swap "b" "a" []) (by decide)).2⟩

end LabelSel
